import Mathlib

/-!
Verification of the TinyEdgeLLMAgents core (plan parser, tool dispatcher,
agent memory) against its natural-language specification.

The Rust source (src/agent/src/planner.rs, dispatcher.rs, memory.rs) is
shallowly embedded below: pure functions become Lean functions, `&mut self`
methods become explicit state passing, fallible code returns
`Option`/`Except`, machine integers become `Nat` (with explicit `% 2 ^ 64`
where overflow matters), `HashMap` becomes an association list whose order
stands for the map's iteration order, and JSON serialization is modelled at
the level of a JSON syntax tree.  Subprocess execution is an explicit
environment parameter.  A Rust panic is modelled as a distinguished error
constructor that every caller propagates.
-/

/-- JSON syntax tree, modelling `serde_json::Value`.  Numbers are naturals:
the embedded code only ever serializes `u64` values (timestamps), and the
parser below rejects other numeric shapes, falling back to the raw-output
path of the dispatcher exactly as an unparseable document would. -/
inductive Json where
  | null : Json
  | bool (b : Bool) : Json
  | num (n : Nat) : Json
  | str (s : String) : Json
  | arr (elems : List Json) : Json
  | obj (fields : List (String × Json)) : Json

/-- Field lookup on a JSON value, modelling `serde_json::Value::get`:
only objects have fields. -/
def Json.getField (j : Json) (k : String) : Option Json :=
  match j with
  | .obj fields => fields.lookup k
  | _ => none

/-- Model of `ActionPlan` (planner.rs).  `priority` is the `u8` field as a
natural number; every constructor in the source yields a value at most 255
and priorities are only ever compared, so `Nat` order coincides with `u8`
order. -/
structure ActionPlan where
  tool : String
  args : List String
  context : Option String
  reasoning : Option String
  priority : Nat
deriving DecidableEq

/-- Model of `ActionPlan::new`: no context, no reasoning, default priority 5. -/
def ActionPlan.new (tool : String) (args : List String) : ActionPlan :=
  { tool := tool, args := args, context := none, reasoning := none, priority := 5 }

/-- Model of `ActionPlan::with_reasoning`. -/
def ActionPlan.with_reasoning (a : ActionPlan) (reasoning : String) : ActionPlan :=
  { a with reasoning := some reasoning }

/-- Model of `ActionPlan::with_priority`: clamped to 1..=10. -/
def ActionPlan.with_priority (a : ActionPlan) (priority : Nat) : ActionPlan :=
  { a with priority := min (max priority 1) 10 }

/-- Initial state of the modelled 64-bit hasher (`DefaultHasher::new()`).
The source uses SipHash-1-3; we model it by a concrete deterministic 64-bit
byte mixer (FNV-1a offset basis), which is sound for every property proved
here because `cache_key` is only ever claimed to be a deterministic function
of the bytes written into the hasher. -/
def hasherInit : Nat := 14695981039346656037

/-- One byte written into the modelled hasher state (FNV-1a step, stands in
for SipHash-1-3's round function). -/
def hashWriteByte (h b : Nat) : Nat := ((h ^^^ b) * 1099511628211) % (2 ^ 64)

/-- A string written into the hasher, modelling `str::hash`: the string's
bytes followed by a `0xff` terminator (the byte stream is modelled by the
sequence of scalar values). -/
def hashWriteStr (h : Nat) (s : String) : Nat :=
  hashWriteByte (s.data.foldl (fun acc c => hashWriteByte acc c.toNat) h) 255

/-- Lowercase hexadecimal digit. -/
def hexDigit (n : Nat) : Char :=
  if n < 10 then Char.ofNat (48 + n) else Char.ofNat (87 + n)

/-- Auxiliary digit accumulator for hexadecimal formatting (fuelled). -/
def hexDigits : Nat → Nat → List Char
  | 0, _ => []
  | _ + 1, 0 => []
  | fuel + 1, n => hexDigits fuel (n / 16) ++ [hexDigit (n % 16)]

/-- Model of Rust's lowercase hexadecimal formatting (the specifier used by
`cache_key`): no leading zeros, zero prints as a single digit. -/
def toHexStr (n : Nat) : String :=
  if n = 0 then "0" else String.mk (hexDigits 64 n)

/-- Model of `ActionPlan::cache_key` (planner.rs): hash the tool name, then
each argument in order, and format the tool name, an underscore and the
final hash in lowercase hex. -/
def ActionPlan.cache_key (a : ActionPlan) : String :=
  let h := hashWriteStr hasherInit a.tool
  let h := a.args.foldl hashWriteStr h
  a.tool ++ "_" ++ toHexStr h

/-- Model of `ExecutionStrategy` (planner.rs). -/
inductive ExecutionStrategy where
  | Sequential : ExecutionStrategy
  | Parallel : ExecutionStrategy
  | Priority : ExecutionStrategy
deriving DecidableEq

/-- Model of `ExecutionPlan` (planner.rs). -/
structure ExecutionPlan where
  actions : List ActionPlan
  execution_strategy : ExecutionStrategy
  timeout_seconds : Nat
deriving DecidableEq

/-- C5: for any two `ActionPlan` values with identical `tool` and identical
`args`, `cache_key` returns equal strings, regardless of any difference in
`context`, `reasoning` or `priority`: the key is computed from the tool name
and the argument list alone. -/
theorem cache_key_eq_of_tool_args_eq (a b : ActionPlan)
    (htool : a.tool = b.tool) (hargs : a.args = b.args) :
    a.cache_key = b.cache_key := by
  simp only [ActionPlan.cache_key, htool, hargs]

/-- Witness for C5: two concrete actions agreeing only on tool and args
(differing context, reasoning and priority) get the same cache key. -/
theorem cache_key_eq_of_tool_args_eq_witness :
    (ActionPlan.mk "math" ["2+2"] none none 5).cache_key
      = (ActionPlan.mk "math" ["2+2"] (some "homework") (some "adding") 9).cache_key :=
  cache_key_eq_of_tool_args_eq _ _ rfl rfl

/-- Model of `Message` (memory.rs): role, content, unix timestamp, and a
string-to-string metadata map (association list standing for `HashMap`). -/
structure Message where
  role : String
  content : String
  timestamp : Nat
  metadata : List (String × String)
deriving DecidableEq

/-- Model of `AgentMemory` (memory.rs).  The two `HashMap` fields are
association lists whose order stands for the map's iteration order;
overwrite-on-store keeps keys unique. -/
structure AgentMemory where
  session_data : List (String × String)
  conversation_history : List Message
  tool_results_cache : List (String × String)
  max_history_size : Nat
deriving DecidableEq

/-- Model of `AgentMemory::new`: all three stores empty, history bounded
at 50 messages. -/
def AgentMemory.new : AgentMemory :=
  { session_data := [], conversation_history := [], tool_results_cache := [],
    max_history_size := 50 }

/-- Model of `HashMap::insert` on the association-list representation:
overwrite the binding in place if the key is present, else append. -/
def strMapInsert (m : List (String × String)) (k v : String) : List (String × String) :=
  if m.any (fun kv => kv.1 == k) then
    m.map (fun kv => if kv.1 == k then (k, v) else kv)
  else m ++ [(k, v)]

/-- Model of `AgentMemory::add_to_history`: push the message, then remove
the oldest entry when the bound is exceeded (`Vec::remove(0)`). -/
def AgentMemory.add_to_history (m : AgentMemory) (msg : Message) : AgentMemory :=
  let h := m.conversation_history ++ [msg]
  if h.length > m.max_history_size then
    { m with conversation_history := h.drop 1 }
  else
    { m with conversation_history := h }

/-- Serialization of a string map field of the memory snapshot
(`serde` serializes a `HashMap<String, String>` as a JSON object). -/
def encodeStrMap (m : List (String × String)) : Json :=
  .obj (m.map fun kv => (kv.1, .str kv.2))

/-- Serialization of one `Message` ( `#[derive(Serialize)]` field order). -/
def encodeMessage (msg : Message) : Json :=
  .obj [("role", .str msg.role), ("content", .str msg.content),
        ("timestamp", .num msg.timestamp), ("metadata", encodeStrMap msg.metadata)]

/-- Model of `AgentMemory::export_to_json`: a snapshot object with exactly
the fields `session_data`, `conversation_history`, `tool_results_cache`
(the serialization is modelled at the JSON-tree level). -/
def AgentMemory.export_to_json (m : AgentMemory) : Json :=
  .obj [("session_data", encodeStrMap m.session_data),
        ("conversation_history", .arr (m.conversation_history.map encodeMessage)),
        ("tool_results_cache", encodeStrMap m.tool_results_cache)]

/-- Deserialization of the entries of a JSON object into string pairs:
every value must be a JSON string, or the whole decode fails. -/
def decodeStrPairs : List (String × Json) → Option (List (String × String))
  | [] => some []
  | (k, .str v) :: rest => (decodeStrPairs rest).map (fun t => (k, v) :: t)
  | _ => none

/-- Rebuilding a `HashMap` from decoded entries, as serde's map visitor
does: fold the pairs into an empty map with insert. -/
def strMapOfPairs (ps : List (String × String)) : List (String × String) :=
  ps.foldl (fun m kv => strMapInsert m kv.1 kv.2) []

/-- Deserialization of a `HashMap<String, String>` snapshot field. -/
def decodeStrMap (j : Json) : Option (List (String × String)) :=
  match j with
  | .obj fields => (decodeStrPairs fields).map strMapOfPairs
  | _ => none

/-- Deserialization of one `Message` (`#[derive(Deserialize)]`): all four
fields must be present with the expected shapes. -/
def decodeMessage (j : Json) : Option Message :=
  match j.getField "role", j.getField "content",
        j.getField "timestamp", j.getField "metadata" with
  | some (.str role), some (.str content), some (.num ts), some mj =>
      (decodeStrMap mj).map
        (fun md => { role := role, content := content, timestamp := ts, metadata := md })
  | _, _, _, _ => none

/-- Deserialization of the conversation history array. -/
def decodeMessages : List Json → Option (List Message)
  | [] => some []
  | j :: rest =>
      match decodeMessage j with
      | some msg => (decodeMessages rest).map (fun t => msg :: t)
      | none => none

/-- Deserialization of the `conversation_history` snapshot field. -/
def decodeHistory (j : Json) : Option (List Message) :=
  match j with
  | .arr elems => decodeMessages elems
  | _ => none

/-- Model of deserializing the `MemoryImport` struct of
`AgentMemory::import_from_json`: the payload must decode into all three
expected fields or the whole decode fails. -/
def decodeMemorySnapshot (j : Json) :
    Option (List (String × String) × List Message × List (String × String)) :=
  match j.getField "session_data", j.getField "conversation_history",
        j.getField "tool_results_cache" with
  | some sj, some hj, some cj =>
      match decodeStrMap sj, decodeHistory hj, decodeStrMap cj with
      | some s, some h, some c => some (s, h, c)
      | _, _, _ => none
  | _, _, _ => none

/-- Model of `AgentMemory::import_from_json` (`&mut self` becomes state
passing): decode the whole payload first; on failure return the error with
the memory untouched, on success replace all three maps. -/
def AgentMemory.import_from_json (m : AgentMemory) (j : Json) :
    AgentMemory × Except String Unit :=
  match decodeMemorySnapshot j with
  | none => (m, .error "Invalid memory snapshot")
  | some (s, h, c) =>
      ({ m with session_data := s, conversation_history := h, tool_results_cache := c },
       .ok ())

/-- A string map whose keys are distinct: every association list standing
for a Rust `HashMap` satisfies this structurally. -/
def StrMapWF (m : List (String × String)) : Prop := (m.map Prod.fst).Nodup

/-- Well-formedness of a memory state: each of its maps has distinct keys. -/
def MemoryWF (m : AgentMemory) : Prop :=
  StrMapWF m.session_data ∧ StrMapWF m.tool_results_cache ∧
    ∀ msg ∈ m.conversation_history, StrMapWF msg.metadata

/-- The pure list content of one `add_to_history` step under capacity `K`:
push, then drop the oldest entry when over the bound. -/
def pushBounded (K : Nat) (h : List Message) (msg : Message) : List Message :=
  let h2 := h ++ [msg]
  if h2.length > K then h2.drop 1 else h2

/-- An empty memory configured for capacity `K` (the shape the memory-bound
test of memory.rs builds by setting `max_history_size` directly). -/
def emptyMemoryWithCap (K : Nat) : AgentMemory :=
  { session_data := [], conversation_history := [], tool_results_cache := [],
    max_history_size := K }

theorem add_to_history_conversation (m : AgentMemory) (msg : Message) :
    (m.add_to_history msg).conversation_history
        = pushBounded m.max_history_size m.conversation_history msg
      ∧ (m.add_to_history msg).max_history_size = m.max_history_size := by
  unfold AgentMemory.add_to_history pushBounded
  by_cases hc : (m.conversation_history ++ [msg]).length > m.max_history_size
  · rw [if_pos hc, if_pos hc]
    exact ⟨rfl, rfl⟩
  · rw [if_neg hc, if_neg hc]
    exact ⟨rfl, rfl⟩

theorem foldl_add_to_history (msgs : List Message) :
    ∀ (m : AgentMemory),
      (msgs.foldl AgentMemory.add_to_history m).conversation_history
          = msgs.foldl (pushBounded m.max_history_size) m.conversation_history
        ∧ (msgs.foldl AgentMemory.add_to_history m).max_history_size
            = m.max_history_size := by
  induction msgs with
  | nil => intro m; exact ⟨rfl, rfl⟩
  | cons msg rest ih =>
      intro m
      obtain ⟨hconv, hmax⟩ := add_to_history_conversation m msg
      obtain ⟨ih1, ih2⟩ := ih (m.add_to_history msg)
      refine ⟨?_, ?_⟩
      · rw [List.foldl_cons, ih1, hconv, hmax, List.foldl_cons]
      · rw [List.foldl_cons, ih2, hmax]

theorem foldl_pushBounded (K : Nat) (msgs : List Message) :
    ∀ (h : List Message), h.length ≤ K →
      msgs.foldl (pushBounded K) h = (h ++ msgs).drop (h.length + msgs.length - K) := by
  induction msgs with
  | nil =>
      intro h hle
      rw [List.foldl_nil, List.append_nil, List.length_nil, Nat.add_zero,
        Nat.sub_eq_zero_of_le hle, List.drop_zero]
  | cons msg rest ih =>
      intro h hle
      rw [List.foldl_cons]
      by_cases hc : (h ++ [msg]).length > K
      · have hK : h.length = K := by
          simp only [List.length_append, List.length_cons, List.length_nil] at hc
          omega
        have hstep : pushBounded K h msg = (h ++ [msg]).drop 1 := by
          unfold pushBounded
          rw [if_pos hc]
        rw [hstep, ih ((h ++ [msg]).drop 1)
          (by simp only [List.length_drop, List.length_append, List.length_cons,
                List.length_nil]; omega)]
        have e1 : List.drop 1 (h ++ [msg]) ++ rest = List.drop 1 ((h ++ [msg]) ++ rest) :=
          (List.drop_append_of_le_length (by simp)).symm
        rw [e1, List.drop_drop]
        have harr : h ++ [msg] ++ rest = h ++ msg :: rest := by simp
        rw [harr]
        congr 1
        simp only [List.length_drop, List.length_append, List.length_cons,
          List.length_nil]
        omega
      · have hstep : pushBounded K h msg = h ++ [msg] := by
          unfold pushBounded
          rw [if_neg hc]
        have hle' : (h ++ [msg]).length ≤ K := Nat.le_of_not_lt hc
        rw [hstep, ih _ hle']
        have harr : h ++ [msg] ++ rest = h ++ msg :: rest := by simp
        rw [harr]
        congr 1
        simp only [List.length_append, List.length_cons, List.length_nil]
        omega

/-- C6: the conversation history never exceeds its configured bound.
Starting from an empty memory with capacity `K`, after inserting the `N`
messages of `msgs` via `add_to_history` with `K < N`, the history is
exactly the last `K` inserted messages in order: its length is `K`, the
oldest `N - K` messages have been evicted first-in-first-out, and the
earliest retained message is the `(N-K)`-th inserted (0-indexed). -/
theorem history_never_exceeds_bound (K : Nat) (msgs : List Message)
    (hK : K < msgs.length) :
    (msgs.foldl AgentMemory.add_to_history (emptyMemoryWithCap K)).conversation_history
        = msgs.drop (msgs.length - K)
      ∧ (msgs.foldl AgentMemory.add_to_history
          (emptyMemoryWithCap K)).conversation_history.length = K
      ∧ (msgs.foldl AgentMemory.add_to_history
          (emptyMemoryWithCap K)).conversation_history[0]?
          = msgs[msgs.length - K]? := by
  obtain ⟨h1, _⟩ := foldl_add_to_history msgs (emptyMemoryWithCap K)
  rw [show (emptyMemoryWithCap K).max_history_size = K from rfl,
    show (emptyMemoryWithCap K).conversation_history = ([] : List Message) from rfl] at h1
  rw [foldl_pushBounded K msgs [] (by simp)] at h1
  simp only [List.nil_append, List.length_nil, Nat.zero_add] at h1
  refine ⟨h1, ?_, ?_⟩
  · rw [h1]
    simp only [List.length_drop]
    omega
  · rw [h1]
    simp [List.getElem?_drop]

/-- Witness for C6: capacity 1, three insertions; only the third inserted
message is retained. -/
theorem history_never_exceeds_bound_witness :
    (1 : Nat) < ([Message.mk "user" "a" 0 [], Message.mk "user" "b" 1 [],
        Message.mk "user" "c" 2 []] : List Message).length
    ∧ (([Message.mk "user" "a" 0 [], Message.mk "user" "b" 1 [],
          Message.mk "user" "c" 2 []] : List Message).foldl AgentMemory.add_to_history
          (emptyMemoryWithCap 1)).conversation_history
        = [Message.mk "user" "a" 0 [], Message.mk "user" "b" 1 [],
            Message.mk "user" "c" 2 []].drop 2 :=
  ⟨by decide, (history_never_exceeds_bound 1 _ (by decide)).1⟩

theorem decodeStrPairs_encode (l : List (String × String)) :
    decodeStrPairs (l.map fun kv => (kv.1, Json.str kv.2)) = some l := by
  induction l with
  | nil => rfl
  | cons kv rest ih =>
      obtain ⟨k, v⟩ := kv
      simp [decodeStrPairs, ih]

theorem strMapInsert_of_not_mem (m : List (String × String)) (k v : String)
    (hk : k ∉ m.map Prod.fst) : strMapInsert m k v = m ++ [(k, v)] := by
  unfold strMapInsert
  rw [if_neg]
  intro hcontra
  rw [List.any_eq_true] at hcontra
  obtain ⟨kv, hmem, heq⟩ := hcontra
  exact hk (List.mem_map.mpr ⟨kv, hmem, eq_of_beq heq⟩)

theorem foldl_strMapInsert (l : List (String × String)) :
    ∀ acc, ((acc ++ l).map Prod.fst).Nodup →
      l.foldl (fun m kv => strMapInsert m kv.1 kv.2) acc = acc ++ l := by
  induction l with
  | nil => intro acc _; simp
  | cons kv rest ih =>
      intro acc hnd
      obtain ⟨k, v⟩ := kv
      rw [List.map_append, List.map_cons] at hnd
      have hmid := List.nodup_middle.mp hnd
      have hknotin : k ∉ acc.map Prod.fst ++ rest.map Prod.fst :=
        (List.nodup_cons.mp hmid).1
      have hk : k ∉ acc.map Prod.fst := fun hc =>
        hknotin (List.mem_append.mpr (Or.inl hc))
      rw [List.foldl_cons, strMapInsert_of_not_mem acc k v hk]
      have hnd' : (((acc ++ [(k, v)]) ++ rest).map Prod.fst).Nodup := by
        simpa using hnd
      rw [ih (acc ++ [(k, v)]) hnd']
      simp

theorem strMapOfPairs_id (l : List (String × String)) (h : StrMapWF l) :
    strMapOfPairs l = l := by
  have := foldl_strMapInsert l [] (by simpa [StrMapWF] using h)
  simpa [strMapOfPairs] using this

theorem decodeStrMap_encode (l : List (String × String)) (h : StrMapWF l) :
    decodeStrMap (encodeStrMap l) = some l := by
  simp [decodeStrMap, encodeStrMap, decodeStrPairs_encode, strMapOfPairs_id l h]

theorem decodeMessage_encode (msg : Message) (h : StrMapWF msg.metadata) :
    decodeMessage (encodeMessage msg) = some msg := by
  simp [decodeMessage, encodeMessage, Json.getField, List.lookup,
    decodeStrMap_encode _ h]

theorem decodeMessages_encode (l : List Message)
    (h : ∀ msg ∈ l, StrMapWF msg.metadata) :
    decodeMessages (l.map encodeMessage) = some l := by
  induction l with
  | nil => rfl
  | cons msg rest ih =>
      rw [List.map_cons]
      rw [show decodeMessages (encodeMessage msg :: rest.map encodeMessage)
          = match decodeMessage (encodeMessage msg) with
            | some m => (decodeMessages (rest.map encodeMessage)).map (fun t => m :: t)
            | none => none from rfl]
      rw [decodeMessage_encode msg (h msg (by simp)),
        ih (fun m hm => h m (by simp [hm]))]
      rfl

theorem decodeMemorySnapshot_export (m : AgentMemory) (h : MemoryWF m) :
    decodeMemorySnapshot m.export_to_json
      = some (m.session_data, m.conversation_history, m.tool_results_cache) := by
  obtain ⟨hs, hc, hh⟩ := h
  simp [decodeMemorySnapshot, AgentMemory.export_to_json, Json.getField,
    List.lookup, decodeStrMap_encode _ hs, decodeStrMap_encode _ hc,
    decodeHistory, decodeMessages_encode _ hh]

/-- C7: export followed immediately by import on a fresh memory instance
reproduces an identical session/history/cache state: for every well-formed
memory, importing its exported snapshot into `AgentMemory::new()` yields a
memory whose `session_data`, `conversation_history` and
`tool_results_cache` equal the exported instance's (and the fresh
instance's own history bound, which is not part of the snapshot). -/
theorem export_import_roundtrip (m : AgentMemory) (h : MemoryWF m) :
    AgentMemory.import_from_json AgentMemory.new m.export_to_json
      = ({ session_data := m.session_data,
           conversation_history := m.conversation_history,
           tool_results_cache := m.tool_results_cache,
           max_history_size := AgentMemory.new.max_history_size },
         Except.ok ()) := by
  unfold AgentMemory.import_from_json
  rw [decodeMemorySnapshot_export m h]

/-- Witness for C7: a concrete memory with one session entry, one message
carrying metadata, and one cached result round-trips exactly. -/
theorem export_import_roundtrip_witness :
    AgentMemory.import_from_json AgentMemory.new
        (AgentMemory.mk [("current_task", "add")] [Message.mk "user" "2+2" 7 [("src", "cli")]]
          [("math_ff", "4")] 50).export_to_json
      = (AgentMemory.mk [("current_task", "add")] [Message.mk "user" "2+2" 7 [("src", "cli")]]
          [("math_ff", "4")] 50, Except.ok ()) :=
  export_import_roundtrip _ (by constructor <;> simp [StrMapWF])

/-- C8: `import_from_json` is atomic.  If the payload does not decode into
all three expected fields, the import fails wholesale and the memory is
returned unchanged (in particular a payload missing any of the three
fields fails); if it decodes, all three maps are replaced at once (and the
history bound is untouched). -/
theorem import_from_json_atomic :
    (∀ (m : AgentMemory) (j : Json), decodeMemorySnapshot j = none →
        AgentMemory.import_from_json m j = (m, Except.error "Invalid memory snapshot"))
    ∧ (∀ (m : AgentMemory) (j : Json) s h c,
        decodeMemorySnapshot j = some (s, h, c) →
          AgentMemory.import_from_json m j
            = ({ session_data := s, conversation_history := h,
                 tool_results_cache := c,
                 max_history_size := m.max_history_size }, Except.ok ()))
    ∧ (∀ (m : AgentMemory) (j : Json),
        j.getField "session_data" = none ∨ j.getField "conversation_history" = none
          ∨ j.getField "tool_results_cache" = none →
          AgentMemory.import_from_json m j = (m, Except.error "Invalid memory snapshot")) := by
  refine ⟨?_, ?_, ?_⟩
  · intro m j hdec
    unfold AgentMemory.import_from_json
    rw [hdec]
  · intro m j s h c hdec
    unfold AgentMemory.import_from_json
    rw [hdec]
  · intro m j hmiss
    unfold AgentMemory.import_from_json
    have hdec : decodeMemorySnapshot j = none := by
      unfold decodeMemorySnapshot
      rcases hmiss with hm | hm | hm <;> rw [hm] <;>
        cases j.getField "session_data" <;>
        cases j.getField "conversation_history" <;>
        cases j.getField "tool_results_cache" <;> rfl
    rw [hdec]

/-- Witness for C8: a payload carrying only `session_data` fails to import
and leaves a non-empty memory exactly as it was. -/
theorem import_from_json_atomic_witness :
    AgentMemory.import_from_json
        (AgentMemory.mk [("k", "v")] [] [] 50)
        (Json.obj [("session_data", Json.obj [])])
      = (AgentMemory.mk [("k", "v")] [] [] 50, Except.error "Invalid memory snapshot") :=
  import_from_json_atomic.2.2 _ _ (Or.inr (Or.inl rfl))

/-- Does the second character list start with the first? -/
def charsStartWith : List Char → List Char → Bool
  | [], _ => true
  | _ :: _, [] => false
  | p :: ps, c :: cs => p == c && charsStartWith ps cs

/-- Does the character list contain the pattern as a contiguous run? -/
def charsContain (pat : List Char) : List Char → Bool
  | [] => charsStartWith pat []
  | c :: cs => charsStartWith pat (c :: cs) || charsContain pat cs

/-- Model of `str::contains` for the substring patterns the source uses. -/
def strContains (s pat : String) : Bool := charsContain pat.data s.data

/-- Model of `str::ends_with`. -/
def strEndsWith (s suf : String) : Bool :=
  charsStartWith suf.data.reverse s.data.reverse

/-- Opening brace character. -/
def braceOpen : Char := Char.ofNat 123

/-- Closing brace character. -/
def braceClose : Char := Char.ofNat 125

/-- JSON string escaping as `serde_json` prints it (quote, backslash and
the common control characters; the flows embedded here produce no other
control characters). -/
def escapeJsonChar (c : Char) : List Char :=
  if c = '"' then ['\\', '"']
  else if c = '\\' then ['\\', '\\']
  else if c = '\n' then ['\\', 'n']
  else if c = '\t' then ['\\', 't']
  else if c = '\r' then ['\\', 'r']
  else [c]

/-- A JSON string literal with its surrounding quotes. -/
def renderJsonString (s : String) : String :=
  "\"" ++ String.mk (s.data.foldr (fun c acc => escapeJsonChar c ++ acc) []) ++ "\""

mutual

/-- Compact JSON printing, modelling `serde_json::to_string` and
`Value::to_string`. -/
def Json.render : Json → String
  | .null => "null"
  | .bool true => "true"
  | .bool false => "false"
  | .num n => toString n
  | .str s => renderJsonString s
  | .arr elems => "[" ++ renderJsonArr elems ++ "]"
  | .obj fields => String.mk [braceOpen] ++ renderJsonObj fields ++ String.mk [braceClose]

/-- Comma-separated rendering of array elements. -/
def renderJsonArr : List Json → String
  | [] => ""
  | [j] => Json.render j
  | j :: rest => Json.render j ++ "," ++ renderJsonArr rest

/-- Comma-separated rendering of object fields. -/
def renderJsonObj : List (String × Json) → String
  | [] => ""
  | [(k, j)] => renderJsonString k ++ ":" ++ Json.render j
  | (k, j) :: rest => renderJsonString k ++ ":" ++ Json.render j ++ "," ++ renderJsonObj rest

end

/-- JSON whitespace. -/
def isJsonWs (c : Char) : Bool :=
  c == ' ' || c == '\n' || c == '\r' || c == '\t'

/-- Match an exact character sequence. -/
def expectChars : List Char → List Char → Option (List Char)
  | [], cs => some cs
  | p :: ps, c :: cs => if p == c then expectChars ps cs else none
  | _ :: _, [] => none

/-- Parse the body of a JSON string literal after the opening quote,
undoing the escapes `renderJsonString` can produce (`\u` sequences are not
modelled: they make the parse fail, which the dispatcher treats as
non-JSON output). -/
def parseJsonStringBody : List Char → Option (List Char × List Char)
  | [] => none
  | '"' :: rest => some ([], rest)
  | '\\' :: e :: rest =>
      match
        (if e = '"' then some '"'
         else if e = '\\' then some '\\'
         else if e = '/' then some '/'
         else if e = 'n' then some '\n'
         else if e = 't' then some '\t'
         else if e = 'r' then some '\r'
         else none) with
      | some c =>
          match parseJsonStringBody rest with
          | some (cs, r) => some (c :: cs, r)
          | none => none
      | none => none
  | c :: rest =>
      match parseJsonStringBody rest with
      | some (cs, r) => some (c :: cs, r)
      | none => none

mutual

/-- Fuelled JSON value parser, modelling `serde_json::from_str::<Value>`
on the document shapes the embedded code can meet.  Unsupported numeric
shapes (sign, fraction, exponent) fail the parse, which the caller treats
like any unparseable output. -/
def parseJsonValue : Nat → List Char → Option (Json × List Char)
  | 0, _ => none
  | fuel + 1, cs =>
      match cs.dropWhile isJsonWs with
      | [] => none
      | c :: rest =>
          if c = 'n' then
            (expectChars ['u', 'l', 'l'] rest).map (fun r => (Json.null, r))
          else if c = 't' then
            (expectChars ['r', 'u', 'e'] rest).map (fun r => (Json.bool true, r))
          else if c = 'f' then
            (expectChars ['a', 'l', 's', 'e'] rest).map (fun r => (Json.bool false, r))
          else if c = '"' then
            match parseJsonStringBody rest with
            | some (cs2, r) => some (Json.str (String.mk cs2), r)
            | none => none
          else if c.isDigit then
            let digits := c :: rest.takeWhile Char.isDigit
            let r := rest.dropWhile Char.isDigit
            match r with
            | '.' :: _ => none
            | 'e' :: _ => none
            | 'E' :: _ => none
            | _ => some (Json.num (digits.foldl (fun n d => n * 10 + (d.toNat - 48)) 0), r)
          else if c = '[' then
            match parseJsonElems fuel rest with
            | some (elems, r) => some (Json.arr elems, r)
            | none => none
          else if c = braceOpen then
            match parseJsonFields fuel rest with
            | some (fields, r) => some (Json.obj fields, r)
            | none => none
          else none

/-- Array elements after the opening bracket. -/
def parseJsonElems : Nat → List Char → Option (List Json × List Char)
  | 0, _ => none
  | fuel + 1, cs =>
      match cs.dropWhile isJsonWs with
      | ']' :: rest => some ([], rest)
      | cs2 =>
          match parseJsonValue fuel cs2 with
          | some (v, r) =>
              match r.dropWhile isJsonWs with
              | ',' :: r2 =>
                  match parseJsonElems fuel r2 with
                  | some (vs, r3) => some (v :: vs, r3)
                  | none => none
              | ']' :: r2 => some ([v], r2)
              | _ => none
          | none => none

/-- Object fields after the opening brace. -/
def parseJsonFields : Nat → List Char → Option (List (String × Json) × List Char)
  | 0, _ => none
  | fuel + 1, cs =>
      match cs.dropWhile isJsonWs with
      | c :: rest =>
          if c = braceClose then some ([], rest)
          else if c = '"' then
            match parseJsonStringBody rest with
            | some (kcs, r) =>
                match r.dropWhile isJsonWs with
                | ':' :: r2 =>
                    match parseJsonValue fuel r2 with
                    | some (v, r3) =>
                        match r3.dropWhile isJsonWs with
                        | ',' :: r4 =>
                            match parseJsonFields fuel r4 with
                            | some (fs, r5) => some ((String.mk kcs, v) :: fs, r5)
                            | none => none
                        | c2 :: r4 =>
                            if c2 = braceClose then some ([(String.mk kcs, v)], r4)
                            else none
                        | _ => none
                    | none => none
                | _ => none
            | none => none
          else none
      | [] => none

end

/-- Parse a whole document: one value with only whitespace around it. -/
def Json.parse (s : String) : Option Json :=
  match parseJsonValue (s.length + 1) s.data with
  | some (j, rest) => if (rest.dropWhile isJsonWs).isEmpty then some j else none
  | none => none

/-- Model of `ToolResult` (dispatcher.rs). -/
structure ToolResult where
  success : Bool
  result : String
  error : Option String
  execution_time_ms : Nat
  tool_name : String
  metadata : List (String × String)
deriving DecidableEq

/-- Model of `ToolResult::success` (named apart from the field). -/
def ToolResult.successResult (tool_name result : String) (execution_time_ms : Nat) : ToolResult :=
  { success := true, result := result, error := none,
    execution_time_ms := execution_time_ms, tool_name := tool_name, metadata := [] }

/-- Model of `ToolResult::error` (named apart from the field). -/
def ToolResult.errorResult (tool_name error : String) (execution_time_ms : Nat) : ToolResult :=
  { success := false, result := "", error := some error,
    execution_time_ms := execution_time_ms, tool_name := tool_name, metadata := [] }

/-- Model of `WasmTool` (dispatcher.rs): registry entry data.  The
`wasmtime` engine and module handles carry no information the dispatch
logic reads, so they are omitted. -/
structure WasmTool where
  name : String
  wasm_path : String
  description : String
deriving DecidableEq

/-- Generic association-list insert modelling `HashMap::insert`. -/
def assocInsert {β : Type} (m : List (String × β)) (k : String) (v : β) : List (String × β) :=
  if m.any (fun kv => kv.1 == k) then
    m.map (fun kv => if kv.1 == k then (k, v) else kv)
  else m ++ [(k, v)]

/-- Model of `ToolDispatcher` (dispatcher.rs): the tool table (association
list order standing for `HashMap` iteration order) and the configured
default timeout in milliseconds. -/
structure ToolDispatcher where
  tools : List (String × WasmTool)
  default_timeout : Nat

/-- Model of `ToolDispatcher::new`: no tools, 30 second timeout. -/
def ToolDispatcher.new : ToolDispatcher :=
  { tools := [], default_timeout := 30000 }

/-- Model of `ToolDispatcher::set_timeout`. -/
def ToolDispatcher.set_timeout (d : ToolDispatcher) (timeout_ms : Nat) : ToolDispatcher :=
  { d with default_timeout := timeout_ms }

/-- Model of `ToolDispatcher::register_tool` (the engine/module loading
carries no dispatch-relevant data). -/
def ToolDispatcher.register_tool (d : ToolDispatcher) (name tool_path : String) : ToolDispatcher :=
  { d with
    tools := assocInsert d.tools name (WasmTool.mk name tool_path ("Tool: " ++ name)) }

/-- The registry's key iteration order. -/
def ToolDispatcher.toolKeys (d : ToolDispatcher) : List String :=
  d.tools.map Prod.fst

/-- Model of `ToolDispatcher::map_tool_alias`: exact match first, then for
the three well-known aliases the first key containing the alias substring
and ending in `-native`, then the first key containing the substring, else
the name unchanged. -/
def ToolDispatcher.map_tool_alias (d : ToolDispatcher) (tool_name : String) : String :=
  if d.tools.any (fun kv => kv.1 == tool_name) then tool_name
  else
    match tool_name with
    | "math" =>
        ((d.toolKeys.find? (fun k => strEndsWith k "-native" && strContains k "math")).orElse
          (fun _ => d.toolKeys.find? (fun k => strContains k "math"))).getD tool_name
    | "fetch" =>
        ((d.toolKeys.find? (fun k => strEndsWith k "-native" && strContains k "fetch")).orElse
          (fun _ => d.toolKeys.find? (fun k => strContains k "fetch"))).getD tool_name
    | "shell" =>
        ((d.toolKeys.find? (fun k => strEndsWith k "-native" && strContains k "shell")).orElse
          (fun _ => d.toolKeys.find? (fun k => strContains k "shell"))).getD tool_name
    | _ => tool_name

/-- Outcome of one raced tool invocation, as `execute_action` observes it:
`timeout(self.default_timeout, tool.execute(&input_str)).await` either
completes with the backend chain's output (`ok`), completes with the
chain's error (`err`), or hits the deadline (`timedOut`).  Elapsed
wall-clock milliseconds are part of the observation. -/
inductive ExecOutcome where
  | ok (output : String) (elapsed : Nat)
  | err (msg : String) (elapsed : Nat)
  | timedOut (elapsed : Nat)

/-- Execution environment: what the operating system does when the
dispatcher runs a tool path on an input under a deadline (the two-stage
native/sandboxed subprocess attempt of `WasmTool::execute` is inside). -/
structure Env where
  run : Nat → String → String → ExecOutcome

/-- How one action's execution can fail without producing a `ToolResult`:
the anyhow error for an unregistered tool, or a Rust panic (which no
caller catches). -/
inductive ExecErr where
  | unknownTool (msg : String)
  | panicked (msg : String)
deriving DecidableEq

/-- The display text of a dispatch error (`e.to_string()`). -/
def execErrMsg : ExecErr → String
  | .unknownTool m => m
  | .panicked m => m

/-- Serialization of the optional action context (`Option<String>`). -/
def ctxJson : Option String → Json
  | none => Json.null
  | some s => Json.str s

/-- Model of the input-envelope construction in
`ToolDispatcher::execute_action`.  First arm: the `args.len() == 1` branch
(operation is the lone argument, empty args).  Second arm: with zero
arguments the else branch evaluates `&action.args[1..]`, whose range start
1 exceeds the length 0 — a panic, modelled as `none` (the
`unwrap_or("default")` fallback for `operation` is unreachable because of
it).  Third arm: two or more arguments. -/
def buildToolInput (args : List String) (ctx : Option String) : Option Json :=
  match args with
  | [a] => some (Json.obj [("operation", Json.str a), ("args", Json.arr []),
      ("context", ctxJson ctx)])
  | [] => none
  | a :: rest => some (Json.obj [("operation", Json.str a),
      ("args", Json.arr (rest.map Json.str)), ("context", ctxJson ctx)])

/-- Model of `str::trim`: strip whitespace from both ends. -/
def strTrim (s : String) : String :=
  String.mk (((s.data.dropWhile Char.isWhitespace).reverse.dropWhile Char.isWhitespace).reverse)

/-- Result synthesis from a completed invocation's raw output: if the
output parses as JSON and has a `result` field, that field's rendering is
the result text, else the trimmed raw output. -/
def interpretToolOutput (actual_tool_name output : String) (elapsed : Nat) : ToolResult :=
  match Json.parse output with
  | some parsed =>
      match parsed.getField "result" with
      | some result => ToolResult.successResult actual_tool_name (Json.render result) elapsed
      | none => ToolResult.successResult actual_tool_name (strTrim output) elapsed
  | none => ToolResult.successResult actual_tool_name (strTrim output) elapsed

/-- Model of `ToolDispatcher::execute_action`: resolve the alias, look the
tool up (unknown tool is the one outward failure), build and serialize the
input envelope (panicking on empty args), run under the dispatcher's
default timeout, and synthesize a `ToolResult` from the outcome. -/
def ToolDispatcher.execute_action (d : ToolDispatcher) (env : Env) (action : ActionPlan) :
    Except ExecErr ToolResult :=
  let actual_tool_name := d.map_tool_alias action.tool
  match d.tools.lookup actual_tool_name with
  | none => .error (.unknownTool
      ("Unknown tool: " ++ actual_tool_name ++ " (mapped from " ++ action.tool ++ ")"))
  | some tool =>
      match buildToolInput action.args action.context with
      | none => .error (.panicked "range start index 1 out of range for slice of length 0")
      | some input =>
          let input_str := Json.render input
          match env.run d.default_timeout tool.wasm_path input_str with
          | .ok output elapsed => .ok (interpretToolOutput actual_tool_name output elapsed)
          | .err e elapsed => .ok (ToolResult.errorResult actual_tool_name e elapsed)
          | .timedOut elapsed =>
              .ok (ToolResult.errorResult actual_tool_name "Tool execution timeout" elapsed)

/-- The `Sequential` loop of `execute_plan`: each action's result is
pushed; a dispatch error (`?` on `execute_action`) aborts the loop. -/
def runSeq (d : ToolDispatcher) (env : Env) : List ActionPlan → Except ExecErr (List ToolResult)
  | [] => .ok []
  | a :: rest =>
      match d.execute_action env a with
      | .error e => .error e
      | .ok r =>
          match runSeq d env rest with
          | .error e => .error e
          | .ok rs => .ok (r :: rs)

/-- The `Parallel` collection loop of `execute_plan`: a returned `Err`
(unknown tool) becomes a synthetic error result tagged `"unknown"` with a
zero duration; a panicked future unwinds `join_all`, so a panic
propagates. -/
def collectParallel : List (Except ExecErr ToolResult) → Except ExecErr (List ToolResult)
  | [] => .ok []
  | .error (.panicked m) :: _ => .error (.panicked m)
  | .error (.unknownTool m) :: rest =>
      (collectParallel rest).map (fun rs => ToolResult.errorResult "unknown" m 0 :: rs)
  | .ok r :: rest => (collectParallel rest).map (fun rs => r :: rs)

/-- The precedence the `Priority` branch sorts by:
`b.priority.cmp(&a.priority)` is not-Greater exactly when `a` may precede
`b`, i.e. when `b.priority ≤ a.priority`. -/
def planOrder (a b : ActionPlan) : Prop := b.priority ≤ a.priority

instance : DecidableRel planOrder := fun a b => Nat.decLe b.priority a.priority

instance : IsTotal ActionPlan planOrder :=
  ⟨fun a b => Nat.le_total b.priority a.priority⟩

instance : IsTrans ActionPlan planOrder :=
  ⟨fun _ _ _ hab hbc => Nat.le_trans hbc hab⟩

/-- Model of `sorted_actions.sort_by(|a, b| b.priority.cmp(&a.priority))`:
Rust's `sort_by` is a stable sort, and the stable sort for a total
preorder is unique, so the stable insertion sort under `planOrder` is the
same function. -/
def sortActionsByPriority (actions : List ActionPlan) : List ActionPlan :=
  actions.insertionSort planOrder

/-- Model of `ToolDispatcher::execute_plan`: the three strategies. -/
def ToolDispatcher.execute_plan (d : ToolDispatcher) (env : Env) (plan : ExecutionPlan) :
    Except ExecErr (List ToolResult) :=
  match plan.execution_strategy with
  | .Sequential => runSeq d env plan.actions
  | .Parallel => collectParallel (plan.actions.map (d.execute_action env))
  | .Priority => runSeq d env (sortActionsByPriority plan.actions)

/-- Environment that reports the deadline it was given as the tool output. -/
def echoDeadlineEnv : Env :=
  { run := fun deadline _ _ => .ok ("deadline=" ++ toString deadline) 0 }

/-- Environment whose every invocation succeeds with output `out`. -/
def constOkEnv : Env := { run := fun _ _ _ => .ok "out" 5 }

/-- Environment whose every invocation fails inside the backend chain. -/
def errEnv : Env := { run := fun _ _ _ => .err "exec failed" 3 }

/-- Environment succeeding at every deadline. -/
def envOkAtDefault : Env := { run := fun deadline _ _ => .ok "A" deadline }

/-- Environment agreeing with `envOkAtDefault` only at deadline 30000 ms. -/
def envDivergesOffDefault : Env :=
  { run := fun deadline _ _ => if deadline == 30000 then .ok "A" deadline else .err "B" 0 }

/-- Counterexample to C1: a plan carrying `timeout_seconds = 7` is executed
by a freshly constructed dispatcher, yet the deadline handed to the
execution environment (echoed into the result text) is the dispatcher's
default 30000 ms — not the plan's 7 s.  `execute_action` races the tool
against `self.default_timeout`; the value carried in the plan is never
consulted. -/
theorem plan_timeout_not_used_counterexample :
    (ToolDispatcher.new.register_tool "math" "tools/math").execute_plan echoDeadlineEnv
        { actions := [ActionPlan.new "math" ["2+2"]],
          execution_strategy := .Sequential, timeout_seconds := 7 }
      = .ok [ToolResult.successResult "math" "deadline=30000" 0]
    ∧ ("deadline=30000" : String) ≠ "deadline=7"
    ∧ ("deadline=30000" : String) ≠ "deadline=7000" :=
  ⟨rfl, by decide, by decide⟩

theorem execute_action_eq (d : ToolDispatcher) (env : Env) (a : ActionPlan) :
    d.execute_action env a
      = match d.tools.lookup (d.map_tool_alias a.tool) with
        | none => .error (.unknownTool
            ("Unknown tool: " ++ d.map_tool_alias a.tool ++ " (mapped from " ++ a.tool ++ ")"))
        | some tool =>
            match buildToolInput a.args a.context with
            | none => .error (.panicked "range start index 1 out of range for slice of length 0")
            | some input =>
                match env.run d.default_timeout tool.wasm_path (Json.render input) with
                | .ok output elapsed =>
                    .ok (interpretToolOutput (d.map_tool_alias a.tool) output elapsed)
                | .err e elapsed =>
                    .ok (ToolResult.errorResult (d.map_tool_alias a.tool) e elapsed)
                | .timedOut elapsed =>
                    .ok (ToolResult.errorResult (d.map_tool_alias a.tool)
                      "Tool execution timeout" elapsed) := rfl

/-- C1 (amended): the per-action deadline is the dispatcher's configured
`default_timeout` (30 s from `ToolDispatcher::new`), not the plan's
`timeout_seconds`: `execute_plan` is invariant under changes to the plan's
`timeout_seconds`, and `execute_action`'s behaviour depends on the
execution environment only through that environment's behaviour at
deadline `default_timeout`. -/
theorem action_deadline_is_dispatcher_default :
    (∀ (d : ToolDispatcher) (env : Env) (acts : List ActionPlan)
        (strat : ExecutionStrategy) (t t' : Nat),
        d.execute_plan env
            { actions := acts, execution_strategy := strat, timeout_seconds := t }
          = d.execute_plan env
            { actions := acts, execution_strategy := strat, timeout_seconds := t' })
    ∧ (∀ (d : ToolDispatcher) (env1 env2 : Env) (a : ActionPlan),
        (∀ path input, env1.run d.default_timeout path input
            = env2.run d.default_timeout path input) →
        d.execute_action env1 a = d.execute_action env2 a) := by
  constructor
  · intro d env acts strat t t'
    cases strat <;> rfl
  · intro d env1 env2 a h
    rw [execute_action_eq, execute_action_eq]
    cases d.tools.lookup (d.map_tool_alias a.tool) with
    | none => rfl
    | some tool =>
        cases buildToolInput a.args a.context with
        | none => rfl
        | some input => simp only [h tool.wasm_path (Json.render input)]

/-- Witness for C1 (amended): two environments that agree at the default
deadline 30000 ms but differ everywhere else produce identical results. -/
theorem action_deadline_is_dispatcher_default_witness :
    (ToolDispatcher.new.register_tool "math" "tools/math").execute_action envOkAtDefault
        (ActionPlan.new "math" ["2+2"])
      = (ToolDispatcher.new.register_tool "math" "tools/math").execute_action
          envDivergesOffDefault (ActionPlan.new "math" ["2+2"]) :=
  action_deadline_is_dispatcher_default.2 _ envOkAtDefault envDivergesOffDefault _
    (fun _ _ => rfl)

/-- Counterexample to C3: in Sequential mode an action whose tool does not
resolve makes `execute_action` fail outward, and the `?` in the loop
aborts the whole plan: no result list is produced at all, although the
sibling action on its own executes fine. -/
theorem sequential_unknown_tool_aborts_counterexample :
    (ToolDispatcher.new.register_tool "math" "tools/math").execute_plan constOkEnv
        { actions := [ActionPlan.new "nosuchtool" ["x"], ActionPlan.new "math" ["2+2"]],
          execution_strategy := .Sequential, timeout_seconds := 30 }
      = .error (.unknownTool "Unknown tool: nosuchtool (mapped from nosuchtool)")
    ∧ (ToolDispatcher.new.register_tool "math" "tools/math").execute_action constOkEnv
        (ActionPlan.new "math" ["2+2"])
      = .ok (ToolResult.successResult "math" "out" 5) :=
  ⟨rfl, rfl⟩

theorem runSeq_all_ok (d : ToolDispatcher) (env : Env) :
    ∀ acts : List ActionPlan,
      (∀ a ∈ acts, ∃ r, d.execute_action env a = .ok r) →
      ∃ l, runSeq d env acts = .ok l
        ∧ List.Forall₂ (fun a r => d.execute_action env a = .ok r) acts l := by
  intro acts
  induction acts with
  | nil => exact fun _ => ⟨[], rfl, List.Forall₂.nil⟩
  | cons a rest ih =>
      intro h
      obtain ⟨r, hr⟩ := h a (by simp)
      obtain ⟨l, hl, hfa⟩ := ih (fun a' ha' => h a' (by simp [ha']))
      refine ⟨r :: l, ?_, List.Forall₂.cons hr hfa⟩
      unfold runSeq
      rw [hr, hl]

/-- C3 (amended): under the Sequential strategy a failing action does not
halt its siblings as long as every action's dispatch returns a
`ToolResult` (error-flagged or successful): `execute_plan` then returns
one result per action, in list order, each the dispatch result of its
action.  (An action whose tool name does not resolve makes
`execute_action` itself error and the `?` aborts the remaining actions —
the counterexample above.) -/
theorem sequential_failures_contained (d : ToolDispatcher) (env : Env)
    (acts : List ActionPlan) (t : Nat)
    (h : ∀ a ∈ acts, ∃ r, d.execute_action env a = .ok r) :
    ∃ l, d.execute_plan env
        { actions := acts, execution_strategy := .Sequential, timeout_seconds := t }
        = .ok l
      ∧ l.length = acts.length
      ∧ List.Forall₂ (fun a r => d.execute_action env a = .ok r) acts l := by
  obtain ⟨l, hl, hfa⟩ := runSeq_all_ok d env acts h
  exact ⟨l, hl, hfa.length_eq.symm, hfa⟩

/-- Witness for C3 (amended): two actions whose executions both fail (the
backend errors), yet the Sequential plan yields both error-flagged
results. -/
theorem sequential_failures_contained_witness :
    ∃ l, (ToolDispatcher.new.register_tool "math" "tools/math").execute_plan errEnv
        { actions := [ActionPlan.new "math" ["2+2"], ActionPlan.new "math" ["5*7"]],
          execution_strategy := .Sequential, timeout_seconds := 30 }
        = .ok l
      ∧ l.length = [ActionPlan.new "math" ["2+2"], ActionPlan.new "math" ["5*7"]].length
      ∧ List.Forall₂
          (fun a r => (ToolDispatcher.new.register_tool "math" "tools/math").execute_action
            errEnv a = .ok r)
          [ActionPlan.new "math" ["2+2"], ActionPlan.new "math" ["5*7"]] l :=
  sequential_failures_contained _ errEnv _ 30 (by
    intro a ha
    simp only [List.mem_cons, List.not_mem_nil, or_false] at ha
    rcases ha with ha | ha <;> subst ha <;> exact ⟨_, rfl⟩)

/-- C4: the input-envelope construction of `execute_action` is not total
on zero-argument actions — it panics.  `buildToolInput` (the embedded
envelope construction) hits the `&action.args[1..]` slice panic on an
empty argument list, and `execute_action` on a registered tool with no
arguments propagates that panic instead of building
`(operation = "default", args = [], context)` as specified. -/
theorem empty_args_envelope_panics :
    buildToolInput [] none = none
    ∧ (ToolDispatcher.new.register_tool "math" "tools/math").execute_action constOkEnv
        (ActionPlan.mk "math" [] none none 5)
      = .error (.panicked "range start index 1 out of range for slice of length 0") :=
  ⟨rfl, rfl⟩

theorem buildToolInput_isSome (args : List String) (ctx : Option String)
    (h : args ≠ []) : ∃ j, buildToolInput args ctx = some j := by
  match args with
  | [] => exact absurd rfl h
  | [a] => exact ⟨_, rfl⟩
  | a :: b :: rest => exact ⟨_, rfl⟩

theorem execute_action_shape (d : ToolDispatcher) (env : Env) (a : ActionPlan)
    (h : a.args ≠ []) :
    (∃ r, d.execute_action env a = .ok r)
      ∨ (∃ m, d.execute_action env a = .error (.unknownTool m)) := by
  rw [execute_action_eq]
  cases d.tools.lookup (d.map_tool_alias a.tool) with
  | none => exact Or.inr ⟨_, rfl⟩
  | some tool =>
      obtain ⟨j, hj⟩ := buildToolInput_isSome a.args a.context h
      rw [hj]
      cases h2 : env.run d.default_timeout tool.wasm_path (Json.render j) with
      | ok output elapsed =>
          refine Or.inl ⟨interpretToolOutput (d.map_tool_alias a.tool) output elapsed, ?_⟩
          simp only [h2]
      | err e elapsed =>
          refine Or.inl ⟨ToolResult.errorResult (d.map_tool_alias a.tool) e elapsed, ?_⟩
          simp only [h2]
      | timedOut elapsed =>
          refine Or.inl ⟨ToolResult.errorResult (d.map_tool_alias a.tool)
            "Tool execution timeout" elapsed, ?_⟩
          simp only [h2]

/-- How the Parallel collection loop converts one launched action's
outcome into the result slot: `Ok` results pass through, a launch error
becomes a synthetic error result tagged `"unknown"` with zero duration. -/
def parJoin : Except ExecErr ToolResult → ToolResult
  | .ok r => r
  | .error e => ToolResult.errorResult "unknown" (execErrMsg e) 0

theorem collectParallel_no_panic (d : ToolDispatcher) (env : Env) :
    ∀ acts : List ActionPlan, (∀ a ∈ acts, a.args ≠ []) →
      collectParallel (acts.map (d.execute_action env))
        = .ok (acts.map (fun a => parJoin (d.execute_action env a))) := by
  intro acts
  induction acts with
  | nil => exact fun _ => rfl
  | cons a rest ih =>
      intro h
      have hrest := ih (fun a' ha' => h a' (by simp [ha']))
      rw [List.map_cons, List.map_cons]
      rcases execute_action_shape d env a (h a (by simp)) with ⟨r, hr⟩ | ⟨m, hm⟩
      · rw [hr]
        show (collectParallel (rest.map (d.execute_action env))).map (fun rs => r :: rs)
            = _
        rw [hrest]
        rfl
      · rw [hm]
        show (collectParallel (rest.map (d.execute_action env))).map
            (fun rs => ToolResult.errorResult "unknown" m 0 :: rs) = _
        rw [hrest]
        rfl

/-- C9 (amended): under the Parallel strategy, provided every action
carries at least one argument (a zero-argument action panics the
envelope construction instead, see the counterexample), `execute_plan`
returns exactly one result per action in launch order: an action whose
launch errors (unknown tool) is converted into a synthetic error result
whose `tool_name` is `"unknown"`, so the result count equals the action
count. -/
theorem parallel_result_count (d : ToolDispatcher) (env : Env)
    (acts : List ActionPlan) (t : Nat) (h : ∀ a ∈ acts, a.args ≠ []) :
    d.execute_plan env
        { actions := acts, execution_strategy := .Parallel, timeout_seconds := t }
      = .ok (acts.map (fun a => parJoin (d.execute_action env a)))
    ∧ (acts.map (fun a => parJoin (d.execute_action env a))).length = acts.length :=
  ⟨collectParallel_no_panic d env acts h, by simp⟩

/-- Witness for C9 (amended): three actions, the middle one with an
unresolvable tool name; the plan yields exactly three results with the
middle slot the synthetic `"unknown"` error. -/
theorem parallel_result_count_witness :
    (ToolDispatcher.new.register_tool "math" "tools/math").execute_plan constOkEnv
        { actions := [ActionPlan.new "math" ["2+2"], ActionPlan.new "nosuchtool" ["x"],
            ActionPlan.new "math" ["5*7"]],
          execution_strategy := .Parallel, timeout_seconds := 30 }
      = .ok ([ActionPlan.new "math" ["2+2"], ActionPlan.new "nosuchtool" ["x"],
            ActionPlan.new "math" ["5*7"]].map
          (fun a => parJoin ((ToolDispatcher.new.register_tool "math" "tools/math").execute_action
            constOkEnv a)))
    ∧ ([ActionPlan.new "math" ["2+2"], ActionPlan.new "nosuchtool" ["x"],
          ActionPlan.new "math" ["5*7"]].map
        (fun a => parJoin ((ToolDispatcher.new.register_tool "math" "tools/math").execute_action
          constOkEnv a))).length
      = [ActionPlan.new "math" ["2+2"], ActionPlan.new "nosuchtool" ["x"],
          ActionPlan.new "math" ["5*7"]].length :=
  parallel_result_count _ constOkEnv _ 30 (by decide)

/-- Counterexample to C9: a Parallel plan with one zero-argument action on
a registered tool produces no result list at all — the envelope
construction panics and the panic unwinds `join_all` — although the plan
has exactly one action. -/
theorem parallel_count_counterexample :
    (ToolDispatcher.new.register_tool "math" "tools/math").execute_plan constOkEnv
        { actions := [ActionPlan.mk "math" [] none none 5],
          execution_strategy := .Parallel, timeout_seconds := 30 }
      = .error (.panicked "range start index 1 out of range for slice of length 0")
    ∧ [ActionPlan.mk "math" [] none none 5].length = 1 :=
  ⟨rfl, rfl⟩

theorem filter_orderedInsert_self (p : Nat) (x : ActionPlan) (hx : x.priority = p) :
    ∀ l : List ActionPlan,
      (List.orderedInsert planOrder x l).filter (fun a => a.priority == p)
        = x :: l.filter (fun a => a.priority == p) := by
  intro l
  induction l with
  | nil => simp [List.orderedInsert, hx]
  | cons y ys ih =>
      by_cases hord : planOrder x y
      · simp [List.orderedInsert, hord, hx]
      · have hstep : List.orderedInsert planOrder x (y :: ys)
            = y :: List.orderedInsert planOrder x ys := by
          simp [List.orderedInsert, hord]
        have hxy : x.priority < y.priority := by
          simp only [planOrder] at hord
          omega
        have hy : (y.priority == p) = false := by
          simp only [beq_eq_false_iff_ne, ne_eq]
          omega
        rw [hstep, List.filter_cons, hy, ih, List.filter_cons, hy]
        simp

theorem filter_orderedInsert_other (p : Nat) (x : ActionPlan) (hx : x.priority ≠ p) :
    ∀ l : List ActionPlan,
      (List.orderedInsert planOrder x l).filter (fun a => a.priority == p)
        = l.filter (fun a => a.priority == p) := by
  intro l
  have hxf : (x.priority == p) = false := by
    simp only [beq_eq_false_iff_ne, ne_eq]
    exact hx
  induction l with
  | nil => simp [List.orderedInsert, hxf]
  | cons y ys ih =>
      by_cases hord : planOrder x y
      · have hstep : List.orderedInsert planOrder x (y :: ys) = x :: y :: ys := by
          simp [List.orderedInsert, hord]
        rw [hstep, List.filter_cons, hxf]
        simp
      · have hstep : List.orderedInsert planOrder x (y :: ys)
            = y :: List.orderedInsert planOrder x ys := by
          simp [List.orderedInsert, hord]
        rw [hstep, List.filter_cons, ih, List.filter_cons]

theorem filter_sortActionsByPriority (p : Nat) :
    ∀ acts : List ActionPlan,
      (sortActionsByPriority acts).filter (fun a => a.priority == p)
        = acts.filter (fun a => a.priority == p) := by
  intro acts
  induction acts with
  | nil => rfl
  | cons x xs ih =>
      show (List.orderedInsert planOrder x (List.insertionSort planOrder xs)).filter
          (fun a => a.priority == p) = _
      by_cases hx : x.priority = p
      · rw [filter_orderedInsert_self p x hx]
        rw [show sortActionsByPriority xs = List.insertionSort planOrder xs from rfl] at ih
        rw [ih, List.filter_cons]
        have hxt : (x.priority == p) = true := by
          simp only [beq_iff_eq]
          exact hx
        rw [hxt]
        simp
      · rw [filter_orderedInsert_other p x hx]
        rw [show sortActionsByPriority xs = List.insertionSort planOrder xs from rfl] at ih
        rw [ih, List.filter_cons]
        have hxf : (x.priority == p) = false := by
          simp only [beq_eq_false_iff_ne, ne_eq]
          exact hx
        rw [hxf]
        simp

/-- C10: under the Priority strategy the actions are stably sorted by
descending priority before sequential execution: the executed order is
`sortActionsByPriority` of the plan's actions, that order is sorted
descending by priority, is a permutation of the original actions, and is
stable (for every priority value the sub-sequence of actions carrying it
is unchanged); concretely, priorities [3, 9, 1] run as [9, 3, 1] and two
priority-5 actions keep their original relative order. -/
theorem priority_strategy_stable_sort (d : ToolDispatcher) (env : Env)
    (acts : List ActionPlan) (t : Nat) :
    (d.execute_plan env
        { actions := acts, execution_strategy := .Priority, timeout_seconds := t }
      = runSeq d env (sortActionsByPriority acts))
    ∧ (sortActionsByPriority acts).Sorted planOrder
    ∧ (sortActionsByPriority acts).Perm acts
    ∧ (∀ p, (sortActionsByPriority acts).filter (fun a => a.priority == p)
        = acts.filter (fun a => a.priority == p))
    ∧ sortActionsByPriority
          [(ActionPlan.new "math" ["3"]).with_priority 3,
           (ActionPlan.new "math" ["9"]).with_priority 9,
           (ActionPlan.new "math" ["1"]).with_priority 1]
        = [(ActionPlan.new "math" ["9"]).with_priority 9,
           (ActionPlan.new "math" ["3"]).with_priority 3,
           (ActionPlan.new "math" ["1"]).with_priority 1]
    ∧ sortActionsByPriority
          [(ActionPlan.new "first" ["a"]).with_priority 5,
           (ActionPlan.new "second" ["b"]).with_priority 5]
        = [(ActionPlan.new "first" ["a"]).with_priority 5,
           (ActionPlan.new "second" ["b"]).with_priority 5] :=
  ⟨rfl, List.sorted_insertionSort planOrder acts, List.perm_insertionSort planOrder acts,
    fun p => filter_sortActionsByPriority p acts, by decide, by decide⟩

/-- Model of `ToolDefinition` (planner.rs). -/
structure ToolDefinition where
  name : String
  description : String
  parameters : List String
  examples : List String
deriving DecidableEq

/-- Model of `Planner` (planner.rs): the registered tool table and the
default timeout in seconds. -/
structure Planner where
  available_tools : List (String × ToolDefinition)
  default_timeout : Nat

/-- Model of `Planner::new`: no tools, 30 second default timeout. -/
def Planner.new : Planner :=
  { available_tools := [], default_timeout := 30 }

/-- Model of `Planner::register_tool`. -/
def Planner.register_tool (p : Planner) (tool : ToolDefinition) : Planner :=
  { p with available_tools := assocInsert p.available_tools tool.name tool }

/-- Model of `Planner::validate_action`: a direct key first, then the
alias probe for the three well-known names, at least one argument
required; otherwise a descriptive error naming the offending tool. -/
def Planner.validate_action (p : Planner) (action : ActionPlan) : Except String Bool :=
  if p.available_tools.any (fun kv => kv.1 == action.tool) then
    if action.args.isEmpty then .error ("Tool " ++ action.tool ++ " requires arguments")
    else .ok true
  else
    let mapped : Option String :=
      match action.tool with
      | "math" => (p.available_tools.map Prod.fst).find? (fun k => strContains k "math")
      | "fetch" => (p.available_tools.map Prod.fst).find? (fun k => strContains k "fetch")
      | "shell" => (p.available_tools.map Prod.fst).find? (fun k => strContains k "shell")
      | _ => none
    match mapped with
    | some _ =>
        if action.args.isEmpty then .error ("Tool " ++ action.tool ++ " requires arguments")
        else .ok true
    | none => .error ("Unknown tool: " ++ action.tool)

/-- Split a character list at every occurrence of a separator. -/
def splitCharsOn (sep : Char) : List Char → List (List Char)
  | [] => [[]]
  | c :: cs =>
      if c == sep then [] :: splitCharsOn sep cs
      else
        match splitCharsOn sep cs with
        | [] => [[c]]
        | l :: ls => (c :: l) :: ls

/-- Model of `str::lines`: the newline-separated pieces.  (Rust's iterator
omits a final empty piece; here it is kept and then skipped by the empty
line check, which trims it away identically.) -/
def splitLines (s : String) : List String :=
  (splitCharsOn '\n' s.data).map String.mk

/-- Model of `Planner::parse_args`: split on commas, trim, drop empties. -/
def parse_args (args_str : String) : List String :=
  ((splitCharsOn ',' args_str.data).map (fun cs => strTrim (String.mk cs))).filter
    (fun s => !s.isEmpty)

/-- The word-character class of the patterns (`\w`). -/
def isWordChar (c : Char) : Bool := c.isAlphanum || c == '_'

/-- The whitespace class of the patterns (`\s`). -/
def isRegexSpace (c : Char) : Bool :=
  c == ' ' || c == '\t' || c == '\n' || c == '\r'
    || c == Char.ofNat 11 || c == Char.ofNat 12

/-- Case-insensitive literal match, returning the rest of the input. -/
def matchCaseInsensitive : List Char → List Char → Option (List Char)
  | [], cs => some cs
  | _ :: _, [] => none
  | p :: ps, c :: cs =>
      if c.toLower == p.toLower then matchCaseInsensitive ps cs else none

/-- Greedy `\s+`. -/
def munchSpaces1 (cs : List Char) : Option (List Char) :=
  match cs with
  | c :: rest => if isRegexSpace c then some (rest.dropWhile isRegexSpace) else none
  | [] => none

/-- Greedy `(\w+)`: the captured run and the rest. -/
def munchWord1 (cs : List Char) : Option (List Char × List Char) :=
  match cs with
  | c :: rest =>
      if isWordChar c then
        some (c :: rest.takeWhile isWordChar, rest.dropWhile isWordChar)
      else none
  | [] => none

/-- One required character. -/
def expectOneChar (c : Char) (cs : List Char) : Option (List Char) :=
  match cs with
  | c2 :: rest => if c2 == c then some rest else none
  | [] => none

/-- The pattern `(?i)use\s+tool:\s*(\w+)\s+with\s+args?:\s*(.+)` applied at
the start of the input, capturing the tool name and argument text.  The
optional `s` and the final `\s*(.+)` backtrack as the regex engine
would: when only whitespace follows the colon, `(.+)` still captures the
last whitespace character. -/
def matchUseToolAt (cs : List Char) : Option (String × String) := do
  let r1 ← matchCaseInsensitive "use".data cs
  let r2 ← munchSpaces1 r1
  let r3 ← matchCaseInsensitive "tool".data r2
  let r4 ← expectOneChar ':' r3
  let r5 := r4.dropWhile isRegexSpace
  let (name, r6) ← munchWord1 r5
  let r7 ← munchSpaces1 r6
  let r8 ← matchCaseInsensitive "with".data r7
  let r9 ← munchSpaces1 r8
  let r10 ← matchCaseInsensitive "arg".data r9
  let r11 ←
    (match matchCaseInsensitive "s".data r10 with
     | some rs =>
         match expectOneChar ':' rs with
         | some rc => some rc
         | none => expectOneChar ':' r10
     | none => expectOneChar ':' r10)
  let r12 := r11.dropWhile isRegexSpace
  if r12.isEmpty then
    match r11.reverse with
    | [] => none
    | c :: _ => some (String.mk name, String.mk [c])
  else some (String.mk name, String.mk r12)

/-- Leftmost unanchored search for the `use tool:` pattern. -/
def searchUseTool : List Char → Option (String × String)
  | [] => none
  | c :: rest =>
      match matchUseToolAt (c :: rest) with
      | some r => some r
      | none => searchUseTool rest

/-- The pattern `(\w+)\(([^)]+)\)` applied at the start of the input. -/
def matchFnCallAt (cs : List Char) : Option (String × String) := do
  let (name, r1) ← munchWord1 cs
  let r2 ← expectOneChar '(' r1
  let (inner, r3) ←
    (match r2 with
     | c :: rest =>
         if c == ')' then none
         else some (c :: rest.takeWhile (fun d => !(d == ')')),
           rest.dropWhile (fun d => !(d == ')')))
     | [] => none)
  let _ ← expectOneChar ')' r3
  some (String.mk name, String.mk inner)

/-- Leftmost unanchored search for the call pattern. -/
def searchFnCall : List Char → Option (String × String)
  | [] => none
  | c :: rest =>
      match matchFnCallAt (c :: rest) with
      | some r => some r
      | none => searchFnCall rest

/-- One pattern's contribution to `parse_tool_line`: no match falls
through; a match is validated, a validation error propagates (`?`), a
valid action is returned. -/
def checkMatched (p : Planner) (found : Option (String × String))
    (next : Except String (Option ActionPlan)) : Except String (Option ActionPlan) :=
  match found with
  | none => next
  | some (tool, args_str) =>
      let action := ActionPlan.new tool (parse_args args_str)
      match p.validate_action action with
      | .error e => .error e
      | .ok true => .ok (some action)
      | .ok false => next

/-- Model of `Planner::parse_tool_line`: the `use tool:` pattern first,
then the `name(args)` pattern, else no action. -/
def Planner.parse_tool_line (p : Planner) (line : String) :
    Except String (Option ActionPlan) :=
  checkMatched p (searchUseTool line.data)
    (checkMatched p (searchFnCall line.data) (.ok none))

/-- The line loop of `Planner::parse_structured_text`: trim, skip empty
lines, `?`-propagate `parse_tool_line` errors, collect matched actions. -/
def collectLineActions (p : Planner) : List String → Except String (List ActionPlan)
  | [] => .ok []
  | line :: rest =>
      let t := strTrim line
      if t.isEmpty then collectLineActions p rest
      else
        match p.parse_tool_line t with
        | .error e => .error e
        | .ok none => collectLineActions p rest
        | .ok (some action) =>
            match collectLineActions p rest with
            | .error e => .error e
            | .ok actions => .ok (action :: actions)

/-- Model of `Planner::parse_structured_text`: collect per-line actions,
fail with "No valid tool commands found" when none were produced, else a
Sequential plan under the parser's default timeout. -/
def Planner.parse_structured_text (p : Planner) (response : String) :
    Except String ExecutionPlan :=
  match collectLineActions p (splitLines response) with
  | .error e => .error e
  | .ok [] => .error "No valid tool commands found"
  | .ok actions =>
      .ok { actions := actions
            execution_strategy := .Sequential
            timeout_seconds := p.default_timeout }

/-- The actions tier 2 extracts when no line's validation errors: trimmed
empty lines and pattern-free lines contribute nothing. -/
def okLineActions (p : Planner) (lines : List String) : List ActionPlan :=
  lines.filterMap (fun line =>
    let t := strTrim line
    if t.isEmpty then none
    else
      match p.parse_tool_line t with
      | .ok (some a) => some a
      | _ => none)

/-- Fixture planner with the single registered tool `math`. -/
def c2Planner : Planner :=
  Planner.new.register_tool
    (ToolDefinition.mk "math" "Perform mathematical calculations" ["expression"] [])

/-- Counterexample to C2: a response whose first line yields a valid
`math` action and whose second line matches the pattern with an unknown
tool name.  The validation failure on the second line aborts the whole
tier with the validation error — the valid action from the first line is
discarded — although the first line alone parses into a one-action
plan. -/
theorem tier2_validation_error_aborts_counterexample :
    c2Planner.parse_structured_text
        "Use tool: math with args: 2+2\nUse tool: nosuch with args: 1"
      = .error "Unknown tool: nosuch"
    ∧ c2Planner.parse_structured_text "Use tool: math with args: 2+2"
      = .ok { actions := [ActionPlan.new "math" ["2+2"]]
              execution_strategy := .Sequential
              timeout_seconds := 30 } :=
  ⟨rfl, rfl⟩

theorem collectLineActions_no_error (p : Planner) :
    ∀ lines : List String,
      (∀ line ∈ lines, (strTrim line).isEmpty = false →
        (p.parse_tool_line (strTrim line)).isOk = true) →
      collectLineActions p lines = .ok (okLineActions p lines) := by
  intro lines
  induction lines with
  | nil => exact fun _ => rfl
  | cons line rest ih =>
      intro h
      have hrest := ih (fun l hl he => h l (by simp [hl]) he)
      by_cases ht : (strTrim line).isEmpty
      · simp only [collectLineActions, okLineActions, List.filterMap_cons, ht, if_true,
          if_pos ht]
        simpa [okLineActions] using hrest
      · have hok := h line (by simp) (by simpa using ht)
        cases hpt : p.parse_tool_line (strTrim line) with
        | error e => rw [hpt] at hok; exact absurd hok (by simp [Except.isOk, Except.toBool])
        | ok oa =>
            cases oa with
            | none =>
                simp only [collectLineActions, okLineActions, List.filterMap_cons,
                  if_neg ht, hpt]
                simpa [okLineActions] using hrest
            | some a =>
                simp only [collectLineActions, okLineActions, List.filterMap_cons,
                  if_neg ht, hpt, hrest]

/-- C2 (amended): in tier-2 line-pattern extraction, lines with no match
are skipped without being errors and, provided no matched line's
validation fails, the tier fails (with "No valid tool commands found")
exactly when zero valid actions result; however a matched line whose tool
name fails validation aborts the whole tier with that validation error,
discarding valid actions extracted from other lines (first conjunct, and
the counterexample). -/
theorem tier2_line_pattern_extraction (p : Planner) (response : String) :
    (∀ e, collectLineActions p (splitLines response) = .error e →
        p.parse_structured_text response = .error e)
    ∧ ((∀ line ∈ splitLines response, (strTrim line).isEmpty = false →
          (p.parse_tool_line (strTrim line)).isOk = true) →
        p.parse_structured_text response
          = if okLineActions p (splitLines response) = [] then
              .error "No valid tool commands found"
            else
              .ok { actions := okLineActions p (splitLines response)
                    execution_strategy := .Sequential
                    timeout_seconds := p.default_timeout }) := by
  constructor
  · intro e he
    unfold Planner.parse_structured_text
    rw [he]
  · intro h
    unfold Planner.parse_structured_text
    rw [collectLineActions_no_error p _ h]
    cases hok : okLineActions p (splitLines response) with
    | nil => simp
    | cons a as => simp

/-- Witness for C2 (amended): a pattern-free first line is skipped, the
valid second line is extracted, and the tier succeeds with exactly that
action. -/
theorem tier2_line_pattern_extraction_witness :
    c2Planner.parse_structured_text "hello world\nUse tool: math with args: 2+2"
      = .ok { actions := [ActionPlan.new "math" ["2+2"]]
              execution_strategy := .Sequential
              timeout_seconds := 30 } :=
  ((tier2_line_pattern_extraction c2Planner
      "hello world\nUse tool: math with args: 2+2").2 (by decide)).trans rfl
